import Mathlib

/-!
Verification of the tempo personal time-tracking tool (src/main.rs).

Shallow embedding conventions:
* A timestamp `DateTime<Utc>` is modelled as an `Int` counting nanoseconds
  since the epoch (chrono stores nanosecond precision).  Comparisons of the
  RFC 3339 strings in SQLite agree with the numeric order of these values.
* A database row of the `missions` table is a `Row` (id, name, start_date,
  optional end_date); the store is the list of rows in insertion order.
* `Utc::now()` is passed in explicitly as a parameter wherever the Rust
  code calls it.
* A chrono `Duration` is an `Int` number of nanoseconds.
-/

/-- One nanosecond-per-second scale factor (chrono stores nanoseconds). -/
def NANOS : Int := 1000000000

/-- chrono `Duration::num_seconds`: the number of whole seconds in the
duration, truncating toward zero (sub-second part discarded). -/
def numSeconds (d : Int) : Int :=
  if 0 ≤ d then d / NANOS else -((-d) / NANOS)

/-- chrono `Duration::seconds`: a duration of exactly `s` whole seconds. -/
def durationSeconds (s : Int) : Int := s * NANOS

/-- The Rust `Mission` struct: name, start timestamp, optional end timestamp. -/
structure Mission where
  name : String
  start_date : Int
  end_date : Option Int
deriving Repr, DecidableEq

/-- `Mission::new`: a fresh mission has no end date. -/
def Mission.new (name : String) (start_date : Int) : Mission :=
  { name := name, start_date := start_date, end_date := none }

/-- `Mission::elapsed_time`: end minus start if closed, now minus start if
open, then truncated to whole seconds via `Duration::seconds(d.num_seconds())`. -/
def Mission.elapsed_time (m : Mission) (now : Int) : Int :=
  durationSeconds (numSeconds
    ((match m.end_date with
      | some end_date => end_date
      | none => now) - m.start_date))

/-- A row of the SQLite `missions` table: `id INTEGER PRIMARY KEY
AUTOINCREMENT, name TEXT NOT NULL, start_date TEXT NOT NULL, end_date TEXT`. -/
structure Row where
  id : Nat
  name : String
  start_date : Int
  end_date : Option Int
deriving Repr, DecidableEq

/-- The persisted store: the rows of the `missions` table in insertion order. -/
abbrev Store := List Row

/-- Reading a row back out of the table yields the `Mission` value the Rust
listing code constructs from it. -/
def Row.toMission (r : Row) : Mission :=
  { name := r.name, start_date := r.start_date, end_date := r.end_date }

/-- A row is open (the mission is ongoing) iff its `end_date` is NULL. -/
def Row.isOpen (r : Row) : Bool := r.end_date.isNone

/-- `stop_active_missions`:
`UPDATE missions SET end_date = :end_date WHERE end_date IS NULL`
with `:end_date = Utc::now()`. -/
def stop_active_missions (now : Int) (state : Store) : Store :=
  state.map fun r =>
    if r.end_date = none then { r with end_date := some now } else r

/-- The id SQLite AUTOINCREMENT assigns to the next inserted row: strictly
larger than every id already in the table. -/
def nextId (state : Store) : Nat :=
  state.foldr (fun r acc => max r.id acc) 0 + 1

/-- `start_new_mission`: first stops all active missions, then
`INSERT INTO missions (name, start_date) VALUES (:name, :start_date)` with
`:start_date = Utc::now()` and `end_date` left NULL. -/
def start_new_mission (name : String) (now : Int) (state : Store) : Store :=
  let stopped := stop_active_missions now state
  stopped ++ [{ id := nextId stopped, name := name,
                start_date := now, end_date := none }]

/-- A sequence of `tempo start` invocations, each with its name and the value
`Utc::now()` had during that invocation. -/
def runStarts (calls : List (String × Int)) (state : Store) : Store :=
  calls.foldl (fun s c => start_new_mission c.1 c.2 s) state

/-- The SQL ordering `ORDER BY start_date DESC`, as a relation on rows. -/
def startDesc (a b : Row) : Prop := b.start_date ≤ a.start_date

instance : DecidableRel startDesc :=
  fun a b => inferInstanceAs (Decidable (b.start_date ≤ a.start_date))

instance : IsTotal Row startDesc :=
  ⟨fun a b => (Int.le_total b.start_date a.start_date)⟩

instance : IsTrans Row startDesc :=
  ⟨fun _ _ _ h1 h2 => Int.le_trans h2 h1⟩

/-- `resume_latest_mission`'s subquery
`SELECT id FROM missions ORDER BY start_date DESC LIMIT 1`. -/
def latestIds (state : Store) : List Nat :=
  ((List.insertionSort startDesc state).take 1).map Row.id

/-- `resume_latest_mission`:
`UPDATE missions SET end_date = NULL WHERE id IN (SELECT id FROM missions
ORDER BY start_date DESC LIMIT 1)`. -/
def resume_latest_mission (state : Store) : Store :=
  state.map fun r =>
    if r.id ∈ latestIds state then { r with end_date := none } else r

/-- Smallest second count accepted by chrono `DateTime::from_timestamp`
(start of year -262143). -/
def chronoMinTs : Int := -8334601228800

/-- Largest second count accepted by chrono `DateTime::from_timestamp`
(end of year 262142). -/
def chronoMaxTs : Int := 8210266876799

/-- chrono `DateTime::from_timestamp(ts, 0)`: `Some` date at that second for
in-range second counts, `None` otherwise. -/
def dateTimeFromTimestamp (ts : Int) : Option Int :=
  if chronoMinTs ≤ ts ∧ ts ≤ chronoMaxTs then some ts else none

/-- A second count, as a nanosecond timestamp (`to_rfc3339` of the resolved
date compares in SQL exactly like this value). -/
def secondsToNanos (ts : Int) : Int := ts * NANOS

/-- The report query:
`SELECT * FROM missions WHERE start_date >= :start_date OR end_date IS NULL
ORDER BY start_date DESC`. -/
def reportRows (bound : Int) (state : Store) : List Row :=
  List.insertionSort startDesc
    (state.filter fun r => bound ≤ r.start_date ∨ r.end_date = none)

/-- The externally observable outcome of one `tempo ls --from <expr>` run. -/
inductive ReportOutcome where
  | parseError
  | invalidRangeError
  | silentReturn
  | table (rows : List Row)
  | emptyMessage
deriving Repr, DecidableEq

/-- `print_report`: `parsed` is the result of `timelib::strtotime` on the
user's expression (seconds, `none` on parse failure), `now` is
`Utc::now().timestamp()` (seconds).  The Rust code unwraps the parse result
(panicking on failure), converts it with `DateTime::from_timestamp` (skipping
the whole body when that returns `None`), panics if `now <= ts`, and
otherwise runs the query, printing a table when rows exist and a
"no missions" message otherwise. -/
def print_report (parsed : Option Int) (now : Int) (state : Store) :
    ReportOutcome :=
  match parsed with
  | none => .parseError
  | some ts =>
    match dateTimeFromTimestamp ts with
    | none => .silentReturn
    | some date =>
      if now ≤ ts then .invalidRangeError
      else
        let rows := reportRows (secondsToNanos date) state
        if rows.length > 0 then .table rows else .emptyMessage

/-- The raw (untruncated) elapsed duration the spec describes:
`end_date - start_date` if closed, else `now - start_date`. -/
def rawElapsed (m : Mission) (now : Int) : Int :=
  (match m.end_date with
   | some end_date => end_date
   | none => now) - m.start_date

/-- The row the `LIMIT 1` subquery selects: head of the store sorted by
`start_date` descending (none when the table is empty). -/
def latestRow (state : Store) : Option Row :=
  (List.insertionSort startDesc state).head?

/-- Every start date in the store is at most `t`. -/
def startsLE (state : Store) (t : Int) : Prop :=
  ∀ r ∈ state, r.start_date ≤ t

/-- Every closed row was closed no earlier than it started. -/
def closedOK (state : Store) : Prop :=
  ∀ r ∈ state, ∀ e, r.end_date = some e → r.start_date ≤ e

example : print_report none 5 [] = ReportOutcome.parseError := rfl
example : print_report (some 10) 5 [] = ReportOutcome.invalidRangeError := rfl
example : print_report (some 3) 5 [] = ReportOutcome.emptyMessage := rfl
example :
    print_report (some 8210266876800) 0 [] = ReportOutcome.silentReturn := rfl
example :
    runStarts [("a", 1), ("b", 2)] [] =
      [⟨1, "a", 1, some 2⟩, ⟨2, "b", 2, none⟩] := rfl
example : resume_latest_mission [⟨1, "a", 1, some 2⟩, ⟨2, "b", 5, some 7⟩] =
    [⟨1, "a", 1, some 2⟩, ⟨2, "b", 5, none⟩] := rfl

/-! ### Helper lemmas -/

lemma trunc_spec (d : Int) :
    durationSeconds (numSeconds d) % NANOS = 0
    ∧ (d - durationSeconds (numSeconds d)).natAbs < 1000000000
    ∧ (durationSeconds (numSeconds d)).natAbs ≤ d.natAbs := by
  simp only [durationSeconds, numSeconds, NANOS]
  split <;> omega

lemma numSeconds_mono (a b : Int) (h : a ≤ b) : numSeconds a ≤ numSeconds b := by
  simp only [numSeconds, NANOS]
  split <;> split <;> omega

lemma dateTimeFromTimestamp_none (ts : Int)
    (h : ts < chronoMinTs ∨ chronoMaxTs < ts) :
    dateTimeFromTimestamp ts = none := by
  simp only [dateTimeFromTimestamp]
  rw [if_neg]
  omega

/-! ### Claim theorems -/

/-- C4: `elapsed_time` returns `end_date - start_date` when an end date is
present and `now - start_date` when it is absent, truncated to whole seconds:
the result is a whole number of seconds, within one second of the raw
difference, and of magnitude no larger than it (sub-second part discarded,
not rounded). -/
theorem elapsed_time_correct (m : Mission) (now : Int) :
    m.elapsed_time now = durationSeconds (numSeconds (rawElapsed m now))
    ∧ m.elapsed_time now % NANOS = 0
    ∧ (rawElapsed m now - m.elapsed_time now).natAbs < 1000000000
    ∧ (m.elapsed_time now).natAbs ≤ (rawElapsed m now).natAbs := by
  obtain ⟨h1, h2, h3⟩ := trunc_spec (rawElapsed m now)
  exact ⟨rfl, h1, h2, h3⟩

/-- C6: when the date expression cannot be resolved (`strtotime` fails),
`print_report` reports a parse error: no query is run and no rows are
returned, for every store state. -/
theorem report_parse_error (now : Int) (state : Store) :
    print_report none now state = ReportOutcome.parseError := rfl

/-- C10: when the resolved second count cannot be converted to a date
(`DateTime::from_timestamp` returns `None` for an out-of-range value),
`print_report` returns silently: no error, no query, no output, not even the
empty-result message. -/
theorem report_silent_on_unrepresentable (ts now : Int) (state : Store)
    (h : ts < chronoMinTs ∨ chronoMaxTs < ts) :
    print_report (some ts) now state = ReportOutcome.silentReturn := by
  simp only [print_report, dateTimeFromTimestamp_none ts h]

/-- C10 witness: a concrete out-of-range second count returns silently. -/
theorem report_silent_on_unrepresentable_witness :
    print_report (some 8210266876800) 0 [] = ReportOutcome.silentReturn :=
  report_silent_on_unrepresentable 8210266876800 0 [] (by decide)

/-- C3 counterexample: the resolved second count 8210266876800 is ≥ now = 0,
yet `print_report` does not fail with the range error (it returns silently,
because `DateTime::from_timestamp` is consulted before the range check). -/
theorem report_range_cex :
    (0 : Int) ≤ 8210266876800
    ∧ print_report (some 8210266876800) 0 [] ≠ ReportOutcome.invalidRangeError := by
  exact ⟨by decide, by decide⟩

/-- C3 (amended): for every resolved second count `ts` that is representable
as a date (within `DateTime::from_timestamp`'s range) and satisfies
`ts ≥ now`, `print_report` fails with the invalid-range error and produces no
result set. -/
theorem report_future_invalid_range (ts now : Int) (state : Store)
    (h1 : chronoMinTs ≤ ts) (h2 : ts ≤ chronoMaxTs) (h3 : now ≤ ts) :
    print_report (some ts) now state = ReportOutcome.invalidRangeError := by
  have hdt : dateTimeFromTimestamp ts = some ts := by
    simp only [dateTimeFromTimestamp]
    rw [if_pos ⟨h1, h2⟩]
  simp only [print_report, hdt, if_pos h3]

/-- C3 witness: the resolved count 100 (a future instant relative to
now = 50) is rejected with the invalid-range error. -/
theorem report_future_invalid_range_witness :
    print_report (some 100) 50 [] = ReportOutcome.invalidRangeError :=
  report_future_invalid_range 100 50 [] (by decide) (by decide) (by decide)

/-- C7: stopping when every row already has an end date leaves every row of
the store unchanged (and the operation reports success, i.e. it is total). -/
theorem stop_noop_when_all_closed (now : Int) (state : Store)
    (h : ∀ r ∈ state, r.end_date ≠ none) :
    stop_active_missions now state = state := by
  induction state with
  | nil => rfl
  | cons r rest ih =>
    have hr := h r (List.mem_cons_self r rest)
    have hrest := ih fun x hx => h x (List.mem_cons_of_mem r hx)
    simp only [stop_active_missions, List.map_cons] at hrest ⊢
    rw [if_neg hr, hrest]

/-- C7 witness: stopping a concrete store whose single row is closed leaves
it unchanged. -/
theorem stop_noop_when_all_closed_witness :
    stop_active_missions 9 [⟨1, "a", 0, some 5⟩] = [⟨1, "a", 0, some 5⟩] :=
  stop_noop_when_all_closed 9 [⟨1, "a", 0, some 5⟩] (by decide)

/-- C8: for an open mission, elapsed time is monotone in the observation
instant: observing later never yields a smaller value. -/
theorem elapsed_monotone (m : Mission) (t1 t2 : Int)
    (hopen : m.end_date = none) (hlt : t1 < t2) :
    m.elapsed_time t1 ≤ m.elapsed_time t2 := by
  obtain ⟨name, s, e⟩ := m
  simp only at hopen
  subst hopen
  simp only [Mission.elapsed_time]
  have hm := numSeconds_mono (t1 - s) (t2 - s) (by omega)
  simp only [durationSeconds, NANOS]
  omega

/-- C8 witness: a concrete open mission observed at 5 then 7 nanoseconds. -/
theorem elapsed_monotone_witness :
    Mission.elapsed_time ⟨"a", 0, none⟩ 5 ≤ Mission.elapsed_time ⟨"a", 0, none⟩ 7 :=
  elapsed_monotone ⟨"a", 0, none⟩ 5 7 rfl (by decide)

lemma reportRows_mem (T : Int) (state : Store) (r : Row) :
    r ∈ reportRows T state ↔
      r ∈ state ∧ (T ≤ r.start_date ∨ r.end_date = none) := by
  unfold reportRows
  rw [(List.perm_insertionSort startDesc _).mem_iff, List.mem_filter]
  simp

/-- C2: the ranged report returns exactly the missions with
`start_date >= T` united with every open mission (whatever its start),
ordered by `start_date` descending; in particular every open mission B and
every in-window mission C is included and every closed out-of-window
mission A is excluded. -/
theorem report_union_correct (T : Int) (state : Store) :
    (∀ r, r ∈ reportRows T state ↔
      r ∈ state ∧ (T ≤ r.start_date ∨ r.end_date = none))
    ∧ List.Sorted startDesc (reportRows T state)
    ∧ (∀ B ∈ state, B.end_date = none → B ∈ reportRows T state)
    ∧ (∀ C ∈ state, T ≤ C.start_date → C ∈ reportRows T state)
    ∧ (∀ A ∈ state, A.end_date ≠ none → A.start_date < T →
        A ∉ reportRows T state) := by
  refine ⟨reportRows_mem T state, List.sorted_insertionSort startDesc _,
    ?_, ?_, ?_⟩
  · intro B hB hopen
    exact (reportRows_mem T state B).2 ⟨hB, Or.inr hopen⟩
  · intro C hC hwin
    exact (reportRows_mem T state C).2 ⟨hC, Or.inl hwin⟩
  · intro A _ hclosed hbefore hmem
    rcases ((reportRows_mem T state A).1 hmem).2 with h | h
    · omega
    · exact hclosed h

/-- C2 witness: with A closed and started before T = 10, B open and started
before T, C closed and started after T, the report includes B and C but
not A. -/
theorem report_union_correct_witness :
    ((⟨2, "b", 1, none⟩ : Row) ∈
      reportRows 10 [⟨1, "a", 0, some 1⟩, ⟨2, "b", 1, none⟩, ⟨3, "c", 12, some 13⟩])
    ∧ ((⟨3, "c", 12, some 13⟩ : Row) ∈
      reportRows 10 [⟨1, "a", 0, some 1⟩, ⟨2, "b", 1, none⟩, ⟨3, "c", 12, some 13⟩])
    ∧ ((⟨1, "a", 0, some 1⟩ : Row) ∉
      reportRows 10 [⟨1, "a", 0, some 1⟩, ⟨2, "b", 1, none⟩, ⟨3, "c", 12, some 13⟩]) := by
  refine ⟨?_, ?_, ?_⟩
  · exact (report_union_correct 10 _).2.2.1 _ (by decide) rfl
  · exact (report_union_correct 10 _).2.2.2.1 _ (by decide) (by decide)
  · exact (report_union_correct 10 _).2.2.2.2 _ (by decide) (by decide) (by decide)

lemma latestRow_latestIds (state : Store) (r : Row)
    (h : latestRow state = some r) : latestIds state = [r.id] := by
  unfold latestRow at h
  unfold latestIds
  cases hs : List.insertionSort startDesc state with
  | nil => rw [hs] at h; cases h
  | cons a tail =>
    rw [hs] at h
    simp only [List.head?_cons, Option.some.injEq] at h
    subst h
    rfl

lemma latestRow_max (state : Store) (r : Row)
    (h : latestRow state = some r) :
    ∀ x ∈ state, x.start_date ≤ r.start_date := by
  intro x hx
  unfold latestRow at h
  have hsorted := List.sorted_insertionSort startDesc state
  have hmem : x ∈ List.insertionSort startDesc state :=
    (List.perm_insertionSort startDesc state).mem_iff.2 hx
  cases hs : List.insertionSort startDesc state with
  | nil => rw [hs] at hmem; cases hmem
  | cons a tail =>
    rw [hs] at h hmem hsorted
    simp only [List.head?_cons, Option.some.injEq] at h
    subst h
    rcases List.mem_cons.1 hmem with rfl | hmem
    · exact le_refl _
    · exact List.rel_of_sorted_cons hsorted x hmem

/-- C5: given a non-empty table split around the row `r` that the
`ORDER BY start_date DESC LIMIT 1` subquery selects (and PRIMARY-KEY-unique
ids), `resume_latest_mission` clears `end_date` on exactly that row —
whatever its current end state — leaving every other row untouched; and on
an empty table it is a no-op rather than an error. -/
theorem resume_latest_correct (state : Store) (r : Row) (pre post : Store)
    (hnodup : (state.map Row.id).Nodup)
    (hsplit : state = pre ++ r :: post)
    (hlatest : latestRow state = some r) :
    resume_latest_mission ([] : Store) = []
    ∧ (∀ x ∈ state, x.start_date ≤ r.start_date)
    ∧ resume_latest_mission state = pre ++ { r with end_date := none } :: post := by
  refine ⟨rfl, latestRow_max state r hlatest, ?_⟩
  have hids := latestRow_latestIds state r hlatest
  subst hsplit
  have hnd : (pre.map Row.id ++ r.id :: post.map Row.id).Nodup := by
    simpa using hnodup
  rw [List.nodup_append] at hnd
  obtain ⟨-, hnd2, hdisj⟩ := hnd
  have hrpost : r.id ∉ post.map Row.id := (List.nodup_cons.1 hnd2).1
  have hpre : ∀ x ∈ pre, x.id ≠ r.id := by
    intro x hx heq
    exact hdisj (List.mem_map_of_mem Row.id hx) (by simp [heq])
  have hpost : ∀ x ∈ post, x.id ≠ r.id := by
    intro x hx heq
    exact hrpost (by rw [← heq]; exact List.mem_map_of_mem Row.id hx)
  unfold resume_latest_mission
  rw [hids, List.map_append, List.map_cons]
  congr 1
  · conv_rhs => rw [← List.map_id pre]
    refine List.map_congr_left ?_
    intro x hx
    exact if_neg fun hmem => hpre x hx (List.mem_singleton.1 hmem)
  · congr 1
    · rw [if_pos (List.mem_singleton.2 rfl)]
    · conv_rhs => rw [← List.map_id post]
      refine List.map_congr_left ?_
      intro x hx
      exact if_neg fun hmem => hpost x hx (List.mem_singleton.1 hmem)

/-- C5 witness: on a concrete two-row table the most recently started row
(already closed) is reopened and the other row is untouched. -/
theorem resume_latest_correct_witness :
    resume_latest_mission [⟨1, "a", 3, some 4⟩, ⟨2, "b", 5, some 6⟩] =
      [⟨1, "a", 3, some 4⟩, ⟨2, "b", 5, none⟩] :=
  (resume_latest_correct [⟨1, "a", 3, some 4⟩, ⟨2, "b", 5, some 6⟩]
    ⟨2, "b", 5, some 6⟩ [⟨1, "a", 3, some 4⟩] [] (by decide) rfl rfl).2.2

/-- C9: `resume_latest_mission` can change only the `end_date` field: the
id, name and `start_date` of every row (in order) are preserved, a row whose
id is not selected by the subquery is fully unchanged, and the elapsed time
of a reopened row is computed from its original `start_date`, not from the
resume instant. -/
theorem resume_frame (state : Store) :
    (resume_latest_mission state).map (fun r => (r.id, r.name, r.start_date))
      = state.map (fun r => (r.id, r.name, r.start_date))
    ∧ (∀ r ∈ state, r.id ∉ latestIds state → r ∈ resume_latest_mission state)
    ∧ (∀ r : Row, ∀ now : Int,
        ({ r with end_date := none } : Row).toMission.elapsed_time now
          = durationSeconds (numSeconds (now - r.start_date))) := by
  refine ⟨?_, ?_, ?_⟩
  · unfold resume_latest_mission
    rw [List.map_map]
    refine List.map_congr_left ?_
    intro r _
    by_cases h : r.id ∈ latestIds state
    · simp [h]
    · simp [h]
  · intro r hr hid
    unfold resume_latest_mission
    exact List.mem_map.2 ⟨r, hr, by rw [if_neg hid]⟩
  · intro r now
    rfl

/-- C9 witness: the non-selected row of a concrete two-row table survives
`resume_latest_mission` unchanged. -/
theorem resume_frame_witness :
    (⟨1, "a", 3, some 4⟩ : Row) ∈
      resume_latest_mission [⟨1, "a", 3, some 4⟩, ⟨2, "b", 5, some 6⟩] :=
  (resume_frame [⟨1, "a", 3, some 4⟩, ⟨2, "b", 5, some 6⟩]).2.1
    ⟨1, "a", 3, some 4⟩ (by decide) (by decide)

lemma stop_all_closed (now : Int) (state : Store) :
    ∀ r ∈ stop_active_missions now state, r.end_date ≠ none := by
  intro r hr
  obtain ⟨x, hx, rfl⟩ := List.mem_map.1 hr
  by_cases h : x.end_date = none
  · rw [if_pos h]
    simp
  · rw [if_neg h]
    exact h

lemma stop_startsLE (now t : Int) (state : Store) (h : startsLE state t) :
    startsLE (stop_active_missions now state) t := by
  intro r hr
  obtain ⟨x, hx, rfl⟩ := List.mem_map.1 hr
  have hx2 := h x hx
  by_cases hc : x.end_date = none
  · rw [if_pos hc]
    exact hx2
  · rw [if_neg hc]
    exact hx2

lemma stop_closedOK (now : Int) (state : Store) (hok : closedOK state)
    (hle : startsLE state now) :
    closedOK (stop_active_missions now state) := by
  intro r hr e he
  obtain ⟨x, hx, rfl⟩ := List.mem_map.1 hr
  by_cases hc : x.end_date = none
  · rw [if_pos hc] at he ⊢
    simp only [Option.some.injEq] at he
    subst he
    exact hle x hx
  · rw [if_neg hc] at he ⊢
    exact hok x hx e he

lemma start_filter (name : String) (tp : Int) (state : Store) :
    (start_new_mission name tp state).filter Row.isOpen
      = [{ id := nextId (stop_active_missions tp state), name := name,
           start_date := tp, end_date := none }] := by
  unfold start_new_mission
  rw [List.filter_append]
  have h1 : (stop_active_missions tp state).filter Row.isOpen = [] := by
    rw [List.filter_eq_nil_iff]
    intro a ha
    have hcl := stop_all_closed tp state a ha
    simpa [Row.isOpen, Option.isNone_iff_eq_none] using hcl
  rw [h1]
  rfl

lemma start_startsLE (name : String) (tp t : Int) (state : Store)
    (h : startsLE state t) (hle : t ≤ tp) :
    startsLE (start_new_mission name tp state) tp := by
  intro r hr
  unfold start_new_mission at hr
  rcases List.mem_append.1 hr with hr | hr
  · exact le_trans (stop_startsLE tp t state h r hr) hle
  · simp only [List.mem_singleton] at hr
    subst hr
    exact le_refl _

lemma start_closedOK (name : String) (tp t : Int) (state : Store)
    (hok : closedOK state) (h : startsLE state t) (hle : t ≤ tp) :
    closedOK (start_new_mission name tp state) := by
  intro r hr e he
  unfold start_new_mission at hr
  rcases List.mem_append.1 hr with hr | hr
  · exact stop_closedOK tp state hok
      (fun x hx => le_trans (h x hx) hle) r hr e he
  · simp only [List.mem_singleton] at hr
    subst hr
    cases he

lemma runStarts_cons (c : String × Int) (rest : List (String × Int))
    (state : Store) :
    runStarts (c :: rest) state
      = runStarts rest (start_new_mission c.1 c.2 state) := rfl

lemma runStarts_spec (calls : List (String × Int)) :
    ∀ (state : Store) (t : Int), startsLE state t → closedOK state →
      List.Chain (fun a b => a ≤ b) t (calls.map Prod.snd) → calls ≠ [] →
      ∃ tlast, (calls.map Prod.snd).getLast? = some tlast
        ∧ startsLE (runStarts calls state) tlast
        ∧ closedOK (runStarts calls state)
        ∧ ∃ r, (runStarts calls state).filter Row.isOpen = [r]
            ∧ r.start_date = tlast ∧ r.end_date = none := by
  induction calls with
  | nil =>
    intro _ _ _ _ _ hne
    exact absurd rfl hne
  | cons c rest ih =>
    intro state t h1 h2 hchain _
    rw [List.map_cons] at hchain
    obtain ⟨hle, hchain2⟩ := List.chain_cons.1 hchain
    have hS1le := start_startsLE c.1 c.2 t state h1 hle
    have hS1ok := start_closedOK c.1 c.2 t state h2 h1 hle
    cases rest with
    | nil =>
      refine ⟨c.2, rfl, hS1le, hS1ok, ?_⟩
      exact ⟨_, start_filter c.1 c.2 state, rfl, rfl⟩
    | cons c2 rest2 =>
      obtain ⟨tlast, hlast, ha, hb, hc⟩ :=
        ih (start_new_mission c.1 c.2 state) c.2 hS1le hS1ok hchain2 (by simp)
      refine ⟨tlast, ?_, ?_, ?_, ?_⟩
      · rw [List.map_cons, List.map_cons, List.getLast?_cons_cons]
        rw [List.map_cons] at hlast
        exact hlast
      · rw [runStarts_cons]
        exact ha
      · rw [runStarts_cons]
        exact hb
      · rw [runStarts_cons]
        exact hc

/-- C1: after any non-empty sequence of `start` invocations from an empty
store, with nondecreasing clock readings, exactly one open mission exists,
its `start_date` is the most recent invocation's timestamp, and every
closed mission has `end_date ≥` its own `start_date`. -/
theorem start_single_active (calls : List (String × Int))
    (hne : calls ≠ [])
    (hchain : List.Chain' (fun a b => a ≤ b) (calls.map Prod.snd)) :
    ∃ tlast, (calls.map Prod.snd).getLast? = some tlast
      ∧ (∃ r, (runStarts calls []).filter Row.isOpen = [r]
          ∧ r.start_date = tlast ∧ r.end_date = none)
      ∧ ∀ r ∈ runStarts calls [], ∀ e, r.end_date = some e → r.start_date ≤ e := by
  cases calls with
  | nil => exact absurd rfl hne
  | cons c rest =>
    rw [List.map_cons] at hchain
    have hchain2 : List.Chain (fun a b => a ≤ b) c.2 ((c :: rest).map Prod.snd) := by
      rw [List.map_cons]
      exact List.Chain.cons (le_refl _) hchain
    obtain ⟨tlast, hlast, -, hok, hopen⟩ :=
      runStarts_spec (c :: rest) []
        c.2 (fun r hr => absurd hr (List.not_mem_nil r))
        (fun r hr => absurd hr (List.not_mem_nil r)) hchain2 (by simp)
    exact ⟨tlast, hlast, hopen, hok⟩

/-- C1 witness: two concrete starts at instants 1 then 2 leave exactly one
open mission, started at 2, and the closed mission ended after it started. -/
theorem start_single_active_witness :
    ∃ tlast,
      (([("a", 1), ("b", 2)] : List (String × Int)).map Prod.snd).getLast? = some tlast
      ∧ (∃ r, (runStarts [("a", 1), ("b", 2)] []).filter Row.isOpen = [r]
          ∧ r.start_date = tlast ∧ r.end_date = none)
      ∧ ∀ r ∈ runStarts [("a", 1), ("b", 2)] [], ∀ e,
          r.end_date = some e → r.start_date ≤ e :=
  start_single_active [("a", 1), ("b", 2)] (by decide)
    (List.Chain.cons (by norm_num) List.Chain.nil)
